import Mathlib

/-!
# Coremodel code generator (`pkg/framework/coremodel/gen.go`)

A shallow embedding of the generator and the properties of its identifier
rewriter, its templates and its driver.

Conventions of the embedding:

* a Go `string` is its sequence of bytes, `List Nat` (every byte below 256);
* a Go `error` is `Option String`, `none` being `nil`;
* calls into other packages whose result the generator cannot compute itself
  (the schema engine, the code generators, the Go parser and printer, the file
  system) are fields of an environment record, and every such call is logged
  in a trace of events. An environment answers a call by its arguments alone;
* a panic is an outcome of its own, apart from a returned error.
-/

set_option autoImplicit false

namespace Coremodel

/-- A Go string: its bytes. -/
abbrev GoString := List Nat

/-- A Go `error` value; `none` is `nil`. -/
abbrev error := Option String

/-- The bytes of an ASCII literal. -/
def ascii (s : String) : GoString := s.toList.map Char.toNat

/-- The literal `"Model"`. -/
def Model : GoString := [77, 111, 100, 101, 108]

/-! ## The parts of the Go standard library the generator calls -/

namespace utf8

/-- Width of the first rune of `s` as `utf8.DecodeRuneInString` reports it:
`0` for the empty string, `1` for an ASCII byte and for every byte that does
not start a valid encoding, otherwise the length of the encoding. -/
def DecodeRuneInStringWidth (s : GoString) : Nat :=
  match s with
  | [] => 0
  | s0 :: rest =>
    if s0 < 0xC2 then 1
    else if s0 ≤ 0xDF then
      match rest with
      | s1 :: _ => if s1 < 0x80 ∨ 0xBF < s1 then 1 else 2
      | _ => 1
    else if s0 ≤ 0xEF then
      let lo := if s0 = 0xE0 then 0xA0 else 0x80
      let hi := if s0 = 0xED then 0x9F else 0xBF
      match rest with
      | s1 :: s2 :: _ =>
        if s1 < lo ∨ hi < s1 then 1
        else if s2 < 0x80 ∨ 0xBF < s2 then 1
        else 3
      | _ => 1
    else if s0 ≤ 0xF4 then
      let lo := if s0 = 0xF0 then 0x90 else 0x80
      let hi := if s0 = 0xF4 then 0x8F else 0xBF
      match rest with
      | s1 :: s2 :: s3 :: _ =>
        if s1 < lo ∨ hi < s1 then 1
        else if s2 < 0x80 ∨ 0xBF < s2 then 1
        else if s3 < 0x80 ∨ 0xBF < s3 then 1
        else 4
      | _ => 1
    else 1

end utf8

namespace strings

/-- The function `strings.Index`: the index of the first instance of `substr`
in `s`, or `-1` when there is none. -/
def Index : GoString → GoString → Int
  | [], substr => if substr = [] then 0 else -1
  | c :: t, substr =>
    if substr <+: c :: t then 0
    else
      let r := Index t substr
      if r < 0 then -1 else r + 1

/-- The replacement loop of `strings.Replace` for a non-empty `old`: at most
`k` instances, left to right, each search starting after the previous match. -/
def replaceLoop (old new : GoString) : Nat → GoString → GoString
  | 0, s => s
  | k + 1, s =>
    let j := Index s old
    if j < 0 then s
    else s.take j.toNat ++ new ++ replaceLoop old new k (s.drop (j.toNat + old.length))

/-- The replacement loop of `strings.Replace` for an empty `old` after the
first insertion: `new` is inserted after each of the next `k` runes. -/
def replaceEmptyLoop (new : GoString) : Nat → GoString → GoString
  | 0, s => s
  | k + 1, s =>
    match s with
    | [] => []
    | c :: t =>
      let w := utf8.DecodeRuneInStringWidth (c :: t)
      (c :: t).take w ++ new ++ replaceEmptyLoop new k ((c :: t).drop w)

/-- The function `strings.Replace(s, old, new, n)`: a copy of `s` with the
first `n` non-overlapping instances of `old` replaced by `new`; an empty `old`
matches at the beginning of the string and after each rune; a negative `n`
puts no limit on the number of replacements. -/
def Replace (s old new : GoString) (n : Int) : GoString :=
  if old = new ∨ n = 0 then s
  else
    let k := if n < 0 then s.length + 1 else n.toNat
    if old = [] then new ++ replaceEmptyLoop new (k - 1) s
    else replaceLoop old new k s

/-- The function `strings.Contains`: whether `substr` occurs in `s`. -/
def Contains : GoString → GoString → Bool
  | [], substr => substr.isEmpty
  | c :: t, substr => substr.isPrefixOf (c :: t) || Contains t substr

/-- Whether every byte of `s` is below `utf8.RuneSelf`. -/
def isASCII (s : GoString) : Bool := s.all fun c => decide (c < 0x80)

/-- Upper-case form of one ASCII byte. -/
def upperByte (c : Nat) : Nat := if 97 ≤ c ∧ c ≤ 122 then c - 32 else c

/-- The function `strings.ToUpper`. On an ASCII-only string it maps the bytes
`a`..`z` to `A`..`Z`; on any other string it is `strings.Map(unicode.ToUpper, s)`,
whose Unicode tables are the parameter `mapUpper`. -/
def ToUpper (mapUpper : GoString → GoString) (s : GoString) : GoString :=
  if isASCII s then s.map upperByte else mapUpper s

/-- The function `isSeparator` of package `strings`, on an ASCII rune:
alphanumerics and the underscore are not separators, every other ASCII rune is. -/
def isSeparator (r : Nat) : Bool :=
  if 48 ≤ r ∧ r ≤ 57 then false
  else if 97 ≤ r ∧ r ≤ 122 then false
  else if 65 ≤ r ∧ r ≤ 90 then false
  else if r = 95 then false
  else true

/-- The mapping loop of `strings.Title` on ASCII runes; `prev` is the rune
before the current one. -/
def titleLoop : Nat → GoString → GoString
  | _, [] => []
  | prev, r :: t =>
    if isSeparator prev then upperByte r :: titleLoop r t
    else r :: titleLoop r t

/-- The function `strings.Title`: the first letter of every word is mapped to
its title case, the first rune being preceded by a space. On an ASCII-only
string every rune is one byte; on any other string the result depends on the
Unicode tables, the parameter `titleUnicode`. -/
def Title (titleUnicode : GoString → GoString) (s : GoString) : GoString :=
  if isASCII s then titleLoop 32 s else titleUnicode s

end strings

/-- The conversion `string(b)` of a byte: the UTF-8 encoding of the code point
`b`, one byte below `0x80` and two bytes from there on. -/
def stringOfByte (b : Nat) : GoString :=
  if b < 0x80 then [b] else [0xC0 + b / 64, 0x80 + b % 64]

/-! ## The identifier rewriter -/

/-- The type `modelReplacer`: a string, the prefix to replace. -/
abbrev modelReplacer := GoString

/-- The function `makeReplacer`: the first byte of the upper-cased name, as a
string, followed by the name without its first byte. `none` is the run-time
panic of indexing or slicing an empty string. -/
def makeReplacer (mapUpper : GoString → GoString) (name : GoString) : Option modelReplacer :=
  match strings.ToUpper mapUpper name with
  | [] => none
  | b :: _ =>
    if 1 ≤ name.length then some (stringOfByte b ++ name.drop 1) else none

/-- The method `modelReplacer.replacePrefix`. -/
def modelReplacer.replacePrefix (m : modelReplacer) (str : GoString) : GoString :=
  if m.length ≤ str.length ∧ str.take m.length = m then
    strings.Replace str m Model 1
  else str

/-! ## Syntax trees and the tree walk -/

namespace ast

/-- A node of a Go syntax tree, as far as the rewriter tells nodes apart: an
identifier (`*ast.Ident`, a leaf of the walk) with its name, or a node of any
other kind with its own data (position-free token text such as a literal) and
its children in the order `ast.Walk` visits them. -/
inductive Node where
  | Ident (Name : GoString)
  | Other (kind : Nat) (lit : GoString) (children : List Node)

mutual
/-- Height of a tree. -/
def Node.depth : Node → Nat
  | .Ident _ => 0
  | .Other _ _ cs => depthList cs + 1
/-- Largest height among a list of trees. -/
def depthList : List Node → Nat
  | [] => 0
  | c :: cs => max c.depth (depthList cs)
end

/-- The function `ast.Walk(v, node)`: call `v.Visit(node)`; when the visitor
`w` it returns is not nil, walk every child of the node with `w` and finish
with `w.Visit(nil)`. The visitor is the function `visit`, which gives the node
as the call leaves it (visitors change nodes in place) and the visitor it
returns; the closing call `w.Visit(nil)` has no node to change and its result
is dropped, so nothing of it remains here. An identifier has no child to walk.
The first argument bounds the depth of the descent. -/
def Walk {V : Type} (visit : V → Option Node → Option Node × Option V) : Nat → V → Node → Node
  | 0, _, node => node
  | fuel + 1, v, node =>
    match visit v (some node) with
    | (node1, none) => node1.getD node
    | (node1, some w) =>
      match node1.getD node with
      | .Ident name => .Ident name
      | .Other k l cs => .Other k l (cs.map (Walk visit fuel w))

mutual
/-- The tree with every identifier name replaced by its image under `f`, every
other node and the shape kept: what the specification asks of the rewriter. -/
def renameIdents (f : GoString → GoString) : Node → Node
  | .Ident n => .Ident (f n)
  | .Other k l cs => .Other k l (renameIdentsList f cs)
/-- The function `renameIdents` on a list of trees. -/
def renameIdentsList (f : GoString → GoString) : List Node → List Node
  | [] => []
  | c :: cs => renameIdents f c :: renameIdentsList f cs
end

mutual
/-- The shape of a tree: the tree with every identifier name erased. -/
def shape : Node → Node
  | .Ident _ => .Ident []
  | .Other k l cs => .Other k l (shapeList cs)
/-- The function `shape` on a list of trees. -/
def shapeList : List Node → List Node
  | [] => []
  | c :: cs => shape c :: shapeList cs
end

mutual
/-- The identifier names of a tree, in walk order. -/
def idents : Node → List GoString
  | .Ident n => [n]
  | .Other _ _ cs => identsList cs
/-- The function `idents` on a list of trees. -/
def identsList : List Node → List GoString
  | [] => []
  | c :: cs => idents c ++ identsList cs
end

end ast

/-- The method `modelReplacer.Visit`: an identifier node gets its name
rewritten, any other node (and a nil node) is left alone, and the visitor
itself is returned. -/
def modelReplacer.Visit (m : modelReplacer) (n : Option ast.Node) :
    Option ast.Node × Option modelReplacer :=
  match n with
  | some (.Ident Name) => (some (.Ident (m.replacePrefix Name)), some m)
  | other => (other, some m)

/-! ## Paths

A path is the list of its elements, the names between separators; an element
is never empty. Directory entry names hold no separator and are neither `.`
nor `..`, so that `filepath.Clean` changes none of the paths built here. -/

/-- A file path, as the list of its elements. -/
abbrev Path := List GoString

namespace filepath

/-- The function `filepath.Join`: the elements of all arguments, in order,
empty ones dropped. -/
def Join (elem : List Path) : Path := elem.flatten.filter fun e => decide (e ≠ [])

/-- The function `filepath.Split`: the directory and the last element. -/
def Split (path : Path) : Path × GoString := (path.dropLast, path.getLastD [])

end filepath

/-- The call `strings.Split(p, sep)` on an absolute path: an empty string
before the leading separator, then the elements. -/
def splitSep (p : Path) : List GoString := [] :: p

/-- A path as text: its elements joined by the separator `/`. -/
def Path.text (p : Path) : GoString := List.intercalate [47] p

/-! ## Data model -/

/-- The type `thema.Lineage`, as far as the generator reads it: the name and
the latest version (sequence number, schema number). -/
structure Lineage where
  Name : GoString
  LatestVersion : Nat × Nat
deriving DecidableEq

/-- The struct `linsrc`, the descriptor of one lineage. -/
structure linsrc where
  lin : Lineage
  path : Path
  relpath : Path
  TitleName : GoString
  PkgName : GoString
deriving DecidableEq

/-- The struct `goPkg`, the data of the addenda template. -/
structure goPkg where
  Name : GoString
  LineagePath : Path
  LatestSeqv : Nat
  LatestSchv : Nat
  IsComposed : Bool

/-- The struct `cmlist` of `generateRegistry`, the data of the registry template. -/
structure cmlist where
  Coremodels : List linsrc

/-- A number as `text/template` prints it: in decimal. -/
def decimal (n : Nat) : GoString := ascii (Nat.repr n)

/-! ## The templates

A template is embedded as the function its execution computes: literal text
is copied, `{{ .Field }}` prints the field, `{{range .Coremodels}}` repeats its
body for every element of the list in order, `{{if}}` keeps its body when the
field is true, and the marker `{{-` drops the white space that ends the text
before it. -/

/-- The text of `genHeader` before the path. -/
def genHeaderText : String :=
  "// This file is autogenerated. DO NOT EDIT.\n//\n// Derived from the Thema lineage at "

/-- The call `fmt.Sprintf(genHeader, relpath)`. -/
def genHeader (relpath : Path) : GoString :=
  ascii genHeaderText ++ relpath.text ++ ascii "\n\n"

namespace tmplAddenda

/-- Text from the start of `tmplAddenda` to the version constant. -/
def embedText : String :=
  "\n//go:embed lineage.cue\nvar cueFS embed.FS\n\n// codegen ensures that this is always the latest Thema schema version\nvar currentVersion = thema.SV("

/-- The doc comment of the generated `Lineage` function, up to the `if`; the
newline that ends the literal text is dropped by the marker `{{-`. -/
def docComment (vars : goPkg) : GoString :=
  ascii ")\n\n// Lineage returns the Thema lineage representing a Grafana " ++ vars.Name ++
  ascii ".\n//\n// The lineage is the canonical specification of the current " ++ vars.Name ++
  ascii " schema,\n// all prior schema versions, and the mappings that allow migration between\n// schema versions."

/-- The body of `{{- if .IsComposed }}`. -/
def composedText : String :=
  "//\n// This is the base variant of the schema. It does not include any composed\n// plugin schemas."

/-- The generated `Lineage` function and the factory assertion after it. -/
def lineageFuncText : String :=
  "\nfunc Lineage(lib thema.Library, opts ...thema.BindOption) (thema.Lineage, error) \x7b\n\treturn cuectx.LoadGrafanaInstancesWithThema(filepath.Join(\"pkg\", \"coremodel\", \"dashboard\"), cueFS, lib, opts...)\n\x7d\n\nvar _ thema.LineageFactory = Lineage\n\n"

/-- The generated `Lineage` function, for the data `vars`. -/
def lineageFunc (_vars : goPkg) : GoString := ascii lineageFuncText

/-- The generated `Coremodel` type with its methods and its provider. -/
def coremodel (vars : goPkg) : GoString :=
  ascii "// Coremodel contains the foundational schema declaration for " ++ vars.Name ++
  ascii "s.\ntype Coremodel struct \x7b\n\tlin thema.Lineage\n\x7d\n\n// Lineage returns the canonical dashboard Lineage.\nfunc (c *Coremodel) Lineage() thema.Lineage \x7b\n\treturn c.lin\n\x7d\n\n// CurrentSchema returns the current (latest) " ++ vars.Name ++
  ascii " Thema schema.\nfunc (c *Coremodel) CurrentSchema() thema.Schema \x7b\n\treturn thema.SchemaP(c.lin, currentVersion)\n\x7d\n\n// GoType returns a pointer to an empty Go struct that corresponds to\n// the current Thema schema.\nfunc (c *Coremodel) GoType() interface\x7b\x7d \x7b\n\treturn &Model\x7b\x7d\n\x7d\n\nfunc ProvideCoremodel(lib thema.Library) (*Coremodel, error) \x7b\n\tlin, err := Lineage(lib)\n\tif err != nil \x7b\n\t\treturn nil, err\n\t\x7d\n\n\treturn &Coremodel\x7b\n\t\tlin: lin,\n\t\x7d, nil\n\x7d\n"

/-- The call `tmplAddenda.Execute(&buuf, vars)`: the text written to the buffer. -/
def Execute (vars : goPkg) : GoString :=
  ascii embedText ++ decimal vars.LatestSeqv ++ ascii ", " ++ decimal vars.LatestSchv ++
  docComment vars ++
  (if vars.IsComposed then ascii composedText else []) ++
  lineageFunc vars ++
  coremodel vars

end tmplAddenda

namespace tmplRegistry

/-- The file header and the import block. -/
def imports (cml : cmlist) : GoString :=
  ascii "\n// This file is autogenerated. DO NOT EDIT.\n//\n// Generated by pkg/framework/coremodel/gen.go\n\npackage staticregistry\n\nimport (\n\t\"sync\"\n\n\t\"github.com/google/wire\"\n\t" ++
  (cml.Coremodels.map fun c =>
    ascii "\n\t\"github.com/grafana/grafana/pkg/coremodel/" ++ c.PkgName ++ ascii "\"").flatten ++
  ascii "\n\t\"github.com/grafana/grafana/pkg/cuectx\"\n\t\"github.com/grafana/grafana/pkg/framework/coremodel\"\n\t\"github.com/grafana/thema\"\n)\n\n"

/-- The provider set `CoremodelSet`, the provider-wiring list. -/
def coremodelSet (cml : cmlist) : GoString :=
  ascii "// CoremodelSet contains all of the wire-style providers from coremodels.\nvar CoremodelSet = wire.NewSet(" ++
  (cml.Coremodels.map fun c => ascii "\n\t" ++ c.PkgName ++ ascii ".ProvideCoremodel,").flatten ++
  ascii "\n\tProvideExplicitRegistry,\n\tProvideRegistry,\n)\n\n"

/-- The variables of the two lazily initialised registries. -/
def onceVarsText : String :=
  "var (\n\teregOnce       sync.Once\n\tdefaultEReg    ExplicitRegistry\n\tdefaultERegErr error\n\n\tregOnce       sync.Once\n\tdefaultReg    *coremodel.Registry\n\tdefaultRegErr error\n)\n\n"

/-- The text of the accessor interface `ExplicitRegistry`. -/
def explicitRegistryInterfaceText : String :=
  "// ExplicitRegistry provides access to individual coremodels via explicit\n// method calls, which are friendly to static analysis.\ntype ExplicitRegistry interface \x7b\n\tDashboard() *dashboard.Coremodel\n\x7d\n\n"

/-- The accessor interface `ExplicitRegistry`, for the data `cml`. -/
def explicitRegistryInterface (_cml : cmlist) : GoString := ascii explicitRegistryInterfaceText

/-- The struct `explicitRegistry` and its fields. -/
def explicitRegistryStruct (cml : cmlist) : GoString :=
  ascii "type explicitRegistry struct \x7b\n\t" ++
  (cml.Coremodels.map fun c =>
    ascii "\n\t" ++ c.PkgName ++ ascii " *" ++ c.PkgName ++ ascii ".Coremodel").flatten ++
  ascii "\n\x7d\n\n"

/-- The accessor methods of `explicitRegistry`. -/
def accessors (cml : cmlist) : GoString :=
  (cml.Coremodels.map fun c =>
    ascii "\nfunc (er explicitRegistry) " ++ c.TitleName ++ ascii "() *" ++ c.PkgName ++
    ascii ".Coremodel \x7b\n\treturn er." ++ c.PkgName ++ ascii "\n\x7d\n").flatten

/-- The functions `provideExplicitRegistry` and `doProvideExplicitRegistry`. -/
def provideExplicit (cml : cmlist) : GoString :=
  ascii "\nfunc provideExplicitRegistry(lib *thema.Library) (ExplicitRegistry, error) \x7b\n\tif lib == nil \x7b\n\t\teregOnce.Do(func() \x7b\n\t\t\tdefaultEReg, defaultERegErr = doProvideExplicitRegistry(cuectx.ProvideThemaLibrary())\n\t\t\x7d)\n\t\treturn defaultEReg, defaultERegErr\n\t\x7d\n\n\treturn doProvideExplicitRegistry(*lib)\n\x7d\n\nfunc doProvideExplicitRegistry(lib thema.Library) (ExplicitRegistry, error) \x7b\n\tvar err error\n\treg := explicitRegistry\x7b\x7d\n\n" ++
  (cml.Coremodels.map fun c =>
    ascii "\n\treg." ++ c.PkgName ++ ascii ", err = " ++ c.PkgName ++
    ascii ".ProvideCoremodel(lib)\n\tif err != nil \x7b\n\t\treturn nil, err\n\t\x7d\n").flatten ++
  ascii "\n\n\treturn reg, nil\n\x7d\n\n"

/-- The functions `provideRegistry` and `doProvideRegistry`. -/
def provideRegistry (cml : cmlist) : GoString :=
  ascii "func provideRegistry() (*coremodel.Registry, error) \x7b\n\tereg, err := provideExplicitRegistry(nil)\n\tif err != nil \x7b\n\t\treturn nil, err\n\t\x7d\n\n\tregOnce.Do(func() \x7b\n\t\tdefaultReg, defaultRegErr = doProvideRegistry(ereg)\n\t\x7d)\n\treturn defaultReg, defaultRegErr\n\x7d\n\nfunc doProvideRegistry(ereg ExplicitRegistry) (*coremodel.Registry, error) \x7b\n\treturn coremodel.NewRegistry(" ++
  (cml.Coremodels.map fun c => ascii "\n\t\tereg." ++ c.TitleName ++ ascii "(),").flatten ++
  ascii "\n\t)\n\x7d\n"

/-- The call `tmplRegistry.Execute(&buf, cml)`: the text written to the buffer. -/
def Execute (cml : cmlist) : GoString :=
  imports cml ++ coremodelSet cml ++ ascii onceVarsText ++ explicitRegistryInterface cml ++
  explicitRegistryStruct cml ++ accessors cml ++ provideExplicit cml ++ provideRegistry cml

end tmplRegistry

/-! ## The environment and the trace -/

/-- An entry of a directory listing (`os.FileInfo`). -/
structure FileInfo where
  Name : GoString
  IsDir : Bool
deriving DecidableEq

/-- What `os.Stat` reports about a path. -/
inductive StatResult where
  | found
  | notExist
  | failed (err : String)

/-- The calls the generator makes into other packages. Values the generator
only hands on (a CUE syntax tree, an OpenAPI document) are numbers. -/
structure Env where
  /-- The function `strings.Map(unicode.ToUpper, s)`, for strings that are not ASCII. -/
  mapUpper : GoString → GoString
  /-- The function `strings.Title`, for strings that are not ASCII. -/
  titleUnicode : GoString → GoString
  /-- The length of `os.Args`. -/
  lenArgs : Nat
  /-- The working directory. -/
  Getwd : Except String Path
  ReadDir : Path → Except String (List FileInfo)
  Open : Path → Except String Nat
  ReadAll : Nat → Except String GoString
  /-- The loader of the schema engine: engine path, content of `lineage.cue`. -/
  LoadGrafanaInstancesWithThema : Path → GoString → Except String Lineage
  /-- The call `openapi.GenerateSchema(sch, nil)` on the latest schema of a lineage. -/
  GenerateSchema : Lineage → Except String Nat
  cueformatNode : Nat → Except String GoString
  /-- The call `yaml.Marshal(lib.Context().BuildFile(f))`. -/
  yamlMarshal : Nat → Except String GoString
  /-- The call `loader.LoadFromData`: the document and the error. -/
  LoadFromData : GoString → Nat × error
  /-- The call `codegen.Generate`: document, package name and the path that
  the import template is formatted with. -/
  codegenGenerate : Nat → GoString → Path → Except String GoString
  ParseFile : GoString → Except String ast.Node
  formatNode : ast.Node → Except String GoString
  importsProcess : Path → GoString → Except String GoString
  WriteFile : Path → GoString → error
  /-- The call `cuetsy.GenerateAST` on the latest schema: the declarations. -/
  GenerateAST : Lineage → Except String (List GoString)
  /-- The call `cuetsy.GenerateSingleAST`: name, latest schema; the pair `T`, `D`. -/
  GenerateSingleAST : GoString → Lineage → Except String (GoString × GoString)
  /-- The call `fmt.Sprint(parts)`. -/
  Sprint : List GoString → GoString
  Stat : Path → StatResult
  Mkdir : Path → error

/-- The external steps, for the trace. -/
inductive Step where
  | Open | ReadAll
  | GenerateSchema | cueformatNode | yamlMarshal | LoadFromData | codegenGenerate
  | ParseFile | formatNode | importsProcess
  | GenerateAST | Stat | ReadDir | Getwd
deriving DecidableEq

/-- One observable action of a run. -/
inductive Event where
  /-- An external step without recorded arguments. -/
  | call (s : Step)
  /-- A line on the error stream. -/
  | stderr
  /-- The loader of the schema engine, with the engine path. -/
  | LoadGrafanaInstancesWithThema (path : Path)
  /-- Entry into one of the functions of the generator. -/
  | processCoremodelDir (path : Path)
  | generateGo (path : Path) (ls : linsrc)
  | generateTypescript (path : Path) (ls : linsrc)
  | generateRegistry (path : Path) (lins : List linsrc)
  | GenerateSingleAST (name : GoString)
  | Mkdir (path : Path)
  | WriteFile (path : Path) (data : GoString)
deriving DecidableEq

/-- How a call of a function returning `error` ends. -/
inductive Outcome where
  | returned (err : error)
  | panicked
deriving DecidableEq

/-- Whether the event is the entry into a generator function or a write. -/
def Event.isOutput : Event → Bool
  | .generateGo _ _ => true
  | .generateTypescript _ _ => true
  | .generateRegistry _ _ => true
  | .Mkdir _ => true
  | .WriteFile _ _ => true
  | _ => false

/-! ## The pipeline -/

/-- The function `processCoremodelDir`: the events, and the descriptor or the error. -/
def processCoremodelDir (env : Env) (path : Path) : List Event × Except String linsrc :=
  let lspath := filepath.Join [path, [ascii "lineage.cue"]]
  match env.Open lspath with
  | .error e =>
    ([.call .Open], .error ("could not open lineage file under " ++ toString path ++ ": " ++ e))
  | .ok f =>
    match env.ReadAll f with
    | .error e => ([.call .Open, .call .ReadAll], .error e)
    | .ok byt =>
      let name := (filepath.Split path).2
      let enginePath := filepath.Join [[ascii "pkg"], [ascii "coremodel"], [name]]
      match env.LoadGrafanaInstancesWithThema enginePath byt with
      | .error e =>
        ([.call .Open, .call .ReadAll, .LoadGrafanaInstancesWithThema enginePath], .error e)
      | .ok lin =>
        ([.call .Open, .call .ReadAll, .LoadGrafanaInstancesWithThema enginePath],
          .ok { lin := lin, path := lspath, relpath := [],
                PkgName := lin.Name, TitleName := strings.Title env.titleUnicode lin.Name })

/-- The value `vars` that `generateGo` executes the addenda template with. -/
def addendaVars (ls : linsrc) : goPkg where
  Name := ls.lin.Name
  LineagePath := ls.relpath
  LatestSeqv := ls.lin.LatestVersion.1
  LatestSchv := ls.lin.LatestVersion.2
  IsComposed := false

/-- The function `generateGo`: the events, and how the call ends. -/
def generateGo (env : Env) (path : Path) (ls : linsrc) : List Event × Outcome :=
  let lin := ls.lin
  match env.GenerateSchema lin with
  | .error e =>
    ([.call .GenerateSchema], .returned (some ("thema openapi generation failed: " ++ e)))
  | .ok f =>
  let t1 : List Event := [.call .GenerateSchema, .call .cueformatNode]
  match env.cueformatNode f with
  | .error e => (t1, .returned (some ("cue format printing failed: " ++ e)))
  | .ok _ =>
  let t2 := t1 ++ [.call .yamlMarshal]
  match env.yamlMarshal f with
  | .error e => (t2, .returned (some ("cue-yaml marshaling failed: " ++ e)))
  | .ok str =>
  -- the error of LoadFromData is overwritten by the next assignment, unread
  let oT := (env.LoadFromData str).1
  let t3 := t2 ++ [.call .LoadFromData, .call .codegenGenerate]
  match env.codegenGenerate oT lin.Name ls.relpath with
  | .error e => (t3, .returned (some ("openapi generation failed: " ++ e)))
  | .ok gostr =>
  let vars := addendaVars ls
  let buuf := tmplAddenda.Execute vars
  let t4 := t3 ++ [.call .ParseFile]
  match env.ParseFile (gostr ++ buuf) with
  | .error e => (t4, .returned (some ("generated go file parsing failed: " ++ e)))
  | .ok gf =>
  match makeReplacer env.mapUpper lin.Name with
  | none => (t4, .panicked)
  | some m =>
  let gf1 := ast.Walk modelReplacer.Visit (gf.depth + 1) m gf
  let t5 := t4 ++ [.call .formatNode]
  match env.formatNode gf1 with
  | .error e => (t5, .returned (some ("ast printing failed: " ++ e)))
  | .ok buf =>
  let t6 := t5 ++ [.call .importsProcess]
  match env.importsProcess [ascii "coremodel_gen.go"] buf with
  | .error e => (t6, .returned (some ("goimports processing failed: " ++ e)))
  | .ok byt =>
  let out := filepath.Join [path, [ascii "coremodel_gen.go"]]
  let t7 := t6 ++ [.WriteFile out byt]
  match env.WriteFile out byt with
  | some e => (t7, .returned (some ("error writing generated code to file: " ++ e)))
  | none => (t7, .returned none)

/-- The function `generateTypescript`: the events, and how the call ends. -/
def generateTypescript (env : Env) (path : Path) (ls : linsrc) : List Event × Outcome :=
  match env.GenerateAST ls.lin with
  | .error e => ([.call .GenerateAST], .returned (some ("cuetsy parts gen failed: " ++ e)))
  | .ok parts =>
  match makeReplacer env.mapUpper ls.lin.Name with
  | none => ([.call .GenerateAST], .panicked)
  | some m =>
  let t1 : List Event := [.call .GenerateAST, .GenerateSingleAST m]
  match env.GenerateSingleAST m ls.lin with
  | .error e => (t1, .returned (some ("cuetsy top gen failed: " ++ e)))
  | .ok top =>
  let nodes := parts ++ [top.1, top.2]
  let str := genHeader ls.relpath ++ env.Sprint nodes
  let out := filepath.Join [path, [ls.lin.Name ++ ascii ".gen.ts"]]
  let t2 := t1 ++ [.call .Stat]
  match env.Stat path with
  | .failed e =>
    (t2, .returned (some ("could not stat parent dir (" ++ toString path ++
      ") for typescript model gen: " ++ e)))
  | .notExist =>
    match env.Mkdir path with
    | some e =>
      (t2 ++ [.Mkdir path], .returned (some ("error while creating parent dir (" ++
        toString path ++ ") for typescript model gen: " ++ e)))
    | none =>
      match env.WriteFile out str with
      | some e =>
        (t2 ++ [.Mkdir path, .WriteFile out str],
          .returned (some ("error writing generated typescript model: " ++ e)))
      | none => (t2 ++ [.Mkdir path, .WriteFile out str], .returned none)
  | .found =>
    match env.WriteFile out str with
    | some e =>
      (t2 ++ [.WriteFile out str],
        .returned (some ("error writing generated typescript model: " ++ e)))
    | none => (t2 ++ [.WriteFile out str], .returned none)

/-- The function `generateRegistry`: the events, and how the call ends. -/
def generateRegistry (env : Env) (path : Path) (lins : List linsrc) : List Event × Outcome :=
  let cml : cmlist := { Coremodels := lins }
  let buf := tmplRegistry.Execute cml
  match env.importsProcess path buf with
  | .error e => ([.call .importsProcess], .returned (some ("goimports processing failed: " ++ e)))
  | .ok byt =>
    match env.WriteFile path byt with
    | some e =>
      ([.call .importsProcess, .WriteFile path byt],
        .returned (some ("error writing generated code to file: " ++ e)))
    | none => ([.call .importsProcess, .WriteFile path byt], .returned none)

/-- The first loop of `main`: every directory of the listing is loaded, in
order, and its descriptor appended to `lins`; the first error ends the run
with exit code 1. A `lin.relpath` that cannot be sliced is a panic, exit code 2. -/
def loadLoop (env : Env) (cmroot : Path) (lenGrootp : Nat) :
    List FileInfo → List linsrc → List Event × Except Nat (List linsrc)
  | [], lins => ([], .ok lins)
  | item :: items, lins =>
    if item.IsDir then
      let dir := filepath.Join [cmroot, [item.Name]]
      let r := processCoremodelDir env dir
      match r.2 with
      | .error _ => (.processCoremodelDir dir :: r.1 ++ [.stderr], .error 1)
      | .ok lin =>
        let parts := splitSep lin.path
        if parts.length < lenGrootp - 3 then
          (.processCoremodelDir dir :: r.1, .error 2)
        else
          let lin1 := { lin with relpath := filepath.Join [parts.drop (lenGrootp - 3)] }
          let rest := loadLoop env cmroot lenGrootp items (lins ++ [lin1])
          (.processCoremodelDir dir :: r.1 ++ rest.1, rest.2)
    else loadLoop env cmroot lenGrootp items lins

/-- The second loop of `main`: Go, then Typescript, for every descriptor in
order; the first error ends the run with exit code 1, a panic with 2. -/
def generateLoop (env : Env) (cmroot tsroot : Path) : List linsrc → List Event × Except Nat Unit
  | [] => ([], .ok ())
  | ls :: lins =>
    let goDir := filepath.Join [cmroot, [ls.lin.Name]]
    let g := generateGo env goDir ls
    match g.2 with
    | .panicked => (.generateGo goDir ls :: g.1, .error 2)
    | .returned (some _) => (.generateGo goDir ls :: g.1 ++ [.stderr], .error 1)
    | .returned none =>
      let tsDir := filepath.Join [tsroot, [ls.lin.Name]]
      let t := generateTypescript env tsDir ls
      match t.2 with
      | .panicked => (.generateGo goDir ls :: g.1 ++ .generateTypescript tsDir ls :: t.1, .error 2)
      | .returned (some _) =>
        (.generateGo goDir ls :: g.1 ++ .generateTypescript tsDir ls :: t.1 ++ [.stderr], .error 1)
      | .returned none =>
        let rest := generateLoop env cmroot tsroot lins
        (.generateGo goDir ls :: g.1 ++ .generateTypescript tsDir ls :: t.1 ++ rest.1, rest.2)

/-- The variable `groot` of `main`, the repository root: the working directory
without its last three elements. -/
def grootOf (cwd : Path) : Path :=
  let grootp := splitSep cwd
  filepath.Join [filepath.Join [grootp.take (grootp.length - 3)]]

/-- The variable `cmroot` of `main`, the directory of the lineages. -/
def cmrootOf (cwd : Path) : Path :=
  filepath.Join [grootOf cwd, [ascii "pkg"], [ascii "coremodel"]]

/-- The variable `tsroot` of `main`, the directory of the Typescript schemas. -/
def tsrootOf (cwd : Path) : Path :=
  filepath.Join [grootOf cwd, [ascii "packages"], [ascii "grafana-schema"],
    [ascii "src"], [ascii "schema"]]

/-- The path of the registry file that `main` hands to `generateRegistry`. -/
def registryPathOf (cwd : Path) : Path :=
  filepath.Join [grootOf cwd, [ascii "pkg"], [ascii "framework"],
    [ascii "coremodel"], [ascii "staticregistry"], [ascii "registry_gen.go"]]

/-- The function `main`: the events of the run and the exit code of the
process (`0` on return, `1` from `os.Exit(1)`, `2` on a panic). -/
def main (env : Env) : List Event × Nat :=
  if env.lenArgs > 1 then ([.stderr], 1)
  else
    match env.Getwd with
    | .error _ => ([.call .Getwd, .stderr], 1)
    | .ok cwd =>
      let grootp := splitSep cwd
      if grootp.length < 3 then ([.call .Getwd], 2)
      else
        match env.ReadDir (cmrootOf cwd) with
        | .error _ => ([.call .Getwd, .call .ReadDir, .stderr], 1)
        | .ok items =>
          let l := loadLoop env (cmrootOf cwd) grootp.length items []
          match l.2 with
          | .error code => (.call .Getwd :: .call .ReadDir :: l.1, code)
          | .ok lins =>
            let g := generateLoop env (cmrootOf cwd) (tsrootOf cwd) lins
            match g.2 with
            | .error code => (.call .Getwd :: .call .ReadDir :: l.1 ++ g.1, code)
            | .ok _ =>
              let r := generateRegistry env (registryPathOf cwd) lins
              let t := .call .Getwd :: .call .ReadDir :: l.1 ++ g.1 ++
                .generateRegistry (registryPathOf cwd) lins :: r.1
              match r.2 with
              | .panicked => (t, 2)
              | .returned (some _) => (t ++ [.stderr], 1)
              | .returned none => (t, 0)

/-! ## What the specification says of names -/

/-- The function `UpperFirst` of the specification: the name with its first
character upper-cased. -/
def UpperFirst (name : GoString) : GoString :=
  match name with
  | [] => []
  | c :: t => strings.upperByte c :: t

/-- Whether a byte is an ASCII letter, a digit or the underscore. -/
def isIdentByte (c : Nat) : Prop :=
  (48 ≤ c ∧ c ≤ 57) ∨ (65 ≤ c ∧ c ≤ 90) ∨ (97 ≤ c ∧ c ≤ 122) ∨ c = 95

/-- A name in the form of a Go package name: not empty, and made of ASCII
letters, digits and underscores. -/
def IsIdentName (name : GoString) : Prop := name ≠ [] ∧ ∀ c ∈ name, isIdentByte c

/-! ## Example inputs -/

/-- A small tree: a node of kind 1 over the identifier `DashboardPanel`, a
literal node holding the text `Dashboard`, and the identifier `Panel`. -/
def exampleTree : ast.Node :=
  .Other 1 [] [.Ident (ascii "DashboardPanel"), .Other 2 (ascii "Dashboard") [],
    .Ident (ascii "Panel")]

/-- An environment in which every step succeeds, except that the lineage
file of the directory `widget` is empty and an empty lineage file does not
load. A lineage is named after its directory, and its latest version is (0, 2). -/
def exampleEnv : Env where
  mapUpper := id
  titleUnicode := id
  lenArgs := 1
  Getwd := .ok [ascii "grafana", ascii "pkg", ascii "framework", ascii "coremodel"]
  ReadDir := fun _ =>
    .ok [⟨ascii "README.md", false⟩, ⟨ascii "dashboard", true⟩, ⟨ascii "widget", true⟩]
  Open := fun p => if ascii "widget" ∈ p then .ok 0 else .ok 1
  ReadAll := fun f => if f = 0 then .ok [] else .ok (ascii "lineage")
  LoadGrafanaInstancesWithThema := fun p byt =>
    if byt = [] then .error "empty lineage file"
    else .ok { Name := p.getLastD [], LatestVersion := (0, 2) }
  GenerateSchema := fun _ => .ok 0
  cueformatNode := fun _ => .ok []
  yamlMarshal := fun _ => .ok (ascii "openapi")
  LoadFromData := fun _ => (0, none)
  codegenGenerate := fun _ _ _ => .ok (ascii "package p\n")
  ParseFile := fun _ => .ok exampleTree
  formatNode := fun _ => .ok (ascii "formatted")
  importsProcess := fun _ _ => .ok (ascii "processed")
  WriteFile := fun _ _ => none
  GenerateAST := fun _ => .ok []
  GenerateSingleAST := fun name _ => .ok (name, name)
  Sprint := fun nodes => nodes.flatten
  Stat := fun _ => .found
  Mkdir := fun _ => none

/-- The environment `exampleEnv` with a document loader that reports an error. -/
def exampleEnvLoadFails : Env :=
  { exampleEnv with LoadFromData := fun _ => (0, some "invalid document") }

/-- The descriptor of a lineage with the given name, as the first loop of
`main` builds it. -/
def exampleLinsrc (name : GoString) : linsrc where
  lin := { Name := name, LatestVersion := (0, 2) }
  path := [ascii "grafana", ascii "pkg", ascii "coremodel", name, ascii "lineage.cue"]
  relpath := [ascii "pkg", ascii "coremodel", name, ascii "lineage.cue"]
  TitleName := strings.Title id name
  PkgName := name

/-! # Properties -/

set_option maxRecDepth 20000

/-! ## The identifier rewriter -/

theorem strings.Index_at_start {s substr : GoString} (h : substr <+: s) :
    strings.Index s substr = 0 := by
  cases s with
  | nil =>
    have : substr = [] := List.prefix_nil.mp h
    simp [strings.Index, this]
  | cons c t => simp [strings.Index, h]

theorem strings.Replace_one_at_start {s old : GoString} (new : GoString) (h : old <+: s) :
    strings.Replace s old new 1 = new ++ s.drop old.length := by
  obtain ⟨t, rfl⟩ := h
  unfold strings.Replace
  by_cases hon : old = new
  · simp [hon]
  · by_cases he : old = []
    · subst he
      simp [hon, strings.replaceEmptyLoop]
    · have hi : strings.Index (old ++ t) old = 0 :=
        strings.Index_at_start (List.prefix_append old t)
      simp [hon, he, strings.replaceLoop, hi]

theorem replacePrefix_cond (m : modelReplacer) (str : GoString) :
    (m.length ≤ str.length ∧ str.take m.length = m) ↔ m <+: str := by
  constructor
  · rintro ⟨_, h⟩
    exact List.prefix_iff_eq_take.mpr h.symm
  · intro h
    exact ⟨h.length_le, (List.prefix_iff_eq_take.mp h).symm⟩

theorem replacePrefix_hit {m : modelReplacer} {str : GoString} (h : m <+: str) :
    m.replacePrefix str = Model ++ str.drop m.length := by
  unfold modelReplacer.replacePrefix
  rw [if_pos ((replacePrefix_cond m str).mpr h)]
  exact strings.Replace_one_at_start Model h

theorem replacePrefix_miss {m : modelReplacer} {str : GoString} (h : ¬ m <+: str) :
    m.replacePrefix str = str := by
  unfold modelReplacer.replacePrefix
  rw [if_neg (fun hc => h ((replacePrefix_cond m str).mp hc))]

/-- C1: `replacePrefix` returns `"Model"` followed by the identifier without its
first `len(p)` bytes when the identifier starts with the prefix `p` (exactly
`"Model"` when the identifier is the prefix), and returns the identifier
unchanged otherwise: when it does not start with `p`, in particular when it is
shorter than `p` and when it starts with `p` only up to letter case. -/
theorem replacePrefix_spec (p : modelReplacer) (s : GoString) :
    (p <+: s → p.replacePrefix s = Model ++ s.drop p.length) ∧
    p.replacePrefix p = Model ∧
    (¬ p <+: s → p.replacePrefix s = s) ∧
    (s.length < p.length → p.replacePrefix s = s) ∧
    (¬ p <+: s → p.map strings.upperByte <+: s.map strings.upperByte →
      p.replacePrefix s = s) := by
  refine ⟨replacePrefix_hit, ?_, replacePrefix_miss, ?_, ?_⟩
  · rw [replacePrefix_hit (List.prefix_refl p)]
    simp
  · intro hlt
    apply replacePrefix_miss
    intro hp
    have := hp.length_le
    omega
  · intro hp _
    exact replacePrefix_miss hp

/-- C1, at the prefix `Dashboard`: `DashboardPanel` becomes `ModelPanel`,
`Dash` and `dashboardPanel` stay. -/
theorem replacePrefix_spec_witness :
    (ascii "Dashboard" <+: ascii "DashboardPanel" ∧
      modelReplacer.replacePrefix (ascii "Dashboard") (ascii "DashboardPanel") =
        Model ++ (ascii "DashboardPanel").drop (ascii "Dashboard").length) ∧
    ((ascii "Dash").length < (ascii "Dashboard").length ∧
      modelReplacer.replacePrefix (ascii "Dashboard") (ascii "Dash") = ascii "Dash") ∧
    (¬ ascii "Dashboard" <+: ascii "dashboardPanel" ∧
      (ascii "Dashboard").map strings.upperByte <+: (ascii "dashboardPanel").map strings.upperByte ∧
      modelReplacer.replacePrefix (ascii "Dashboard") (ascii "dashboardPanel") =
        ascii "dashboardPanel") :=
  ⟨⟨by decide, (replacePrefix_spec (ascii "Dashboard") (ascii "DashboardPanel")).1 (by decide)⟩,
   ⟨by decide, (replacePrefix_spec (ascii "Dashboard") (ascii "Dash")).2.2.2.1 (by decide)⟩,
   ⟨by decide, by decide,
    (replacePrefix_spec (ascii "Dashboard") (ascii "dashboardPanel")).2.2.2.2
      (by decide) (by decide)⟩⟩

/-- C9: when the prefix `p` is not a prefix of `"Model"` and `"Model"` is not a
prefix of `p`, rewriting an identifier twice gives the same as rewriting it once. -/
theorem replacePrefix_idempotent (p : modelReplacer) (s : GoString)
    (h1 : ¬ p <+: Model) (h2 : ¬ Model <+: p) :
    p.replacePrefix (p.replacePrefix s) = p.replacePrefix s := by
  by_cases hp : p <+: s
  · rw [replacePrefix_hit hp]
    apply replacePrefix_miss
    intro hq
    have hm : Model <+: Model ++ s.drop p.length := List.prefix_append _ _
    rcases List.prefix_or_prefix_of_prefix hq hm with h | h
    · exact h1 h
    · exact h2 h
  · rw [replacePrefix_miss hp, replacePrefix_miss hp]

/-- C9, at the prefix `Dashboard` and the identifier `DashboardPanel`. -/
theorem replacePrefix_idempotent_witness :
    ¬ ascii "Dashboard" <+: Model ∧ ¬ Model <+: ascii "Dashboard" ∧
    modelReplacer.replacePrefix (ascii "Dashboard")
        (modelReplacer.replacePrefix (ascii "Dashboard") (ascii "DashboardPanel")) =
      modelReplacer.replacePrefix (ascii "Dashboard") (ascii "DashboardPanel") :=
  ⟨by decide, by decide,
   replacePrefix_idempotent (ascii "Dashboard") (ascii "DashboardPanel") (by decide) (by decide)⟩

/-! ## The tree walk -/

theorem ast.renameIdentsList_eq_map (f : GoString → GoString) (cs : List ast.Node) :
    ast.renameIdentsList f cs = cs.map (ast.renameIdents f) := by
  induction cs with
  | nil => simp [ast.renameIdentsList]
  | cons c cs ih => simp [ast.renameIdentsList, ih]

theorem ast.depth_le_depthList {c : ast.Node} {cs : List ast.Node} (h : c ∈ cs) :
    c.depth ≤ ast.depthList cs := by
  induction cs with
  | nil => cases h
  | cons d ds ih =>
    simp only [ast.depthList]
    rcases List.mem_cons.mp h with rfl | h
    · exact le_max_left _ _
    · exact le_trans (ih h) (le_max_right _ _)

theorem ast.Walk_modelReplacer (m : modelReplacer) :
    ∀ (fuel : Nat) (t : ast.Node), t.depth < fuel →
      ast.Walk modelReplacer.Visit fuel m t = ast.renameIdents m.replacePrefix t := by
  intro fuel
  induction fuel with
  | zero => intro t h; omega
  | succ fuel ih =>
    intro t h
    cases t with
    | Ident n => simp [ast.Walk, modelReplacer.Visit, ast.renameIdents]
    | Other k l cs =>
      simp only [ast.Walk, modelReplacer.Visit, ast.renameIdents, Option.getD_some,
        ast.renameIdentsList_eq_map]
      congr 1
      apply List.map_congr_left
      intro c hc
      apply ih
      have := ast.depth_le_depthList hc
      simp only [ast.Node.depth] at h
      omega

mutual
theorem ast.shape_renameIdents (f : GoString → GoString) :
    ∀ t : ast.Node, ast.shape (ast.renameIdents f t) = ast.shape t
  | .Ident _ => by simp [ast.renameIdents, ast.shape]
  | .Other k l cs => by
    simp only [ast.renameIdents, ast.shape]
    rw [ast.shapeList_renameIdentsList f cs]
theorem ast.shapeList_renameIdentsList (f : GoString → GoString) :
    ∀ cs : List ast.Node, ast.shapeList (ast.renameIdentsList f cs) = ast.shapeList cs
  | [] => by simp [ast.renameIdentsList, ast.shapeList]
  | c :: cs => by
    simp only [ast.renameIdentsList, ast.shapeList]
    rw [ast.shape_renameIdents f c, ast.shapeList_renameIdentsList f cs]
end

mutual
theorem ast.idents_renameIdents (f : GoString → GoString) :
    ∀ t : ast.Node, ast.idents (ast.renameIdents f t) = (ast.idents t).map f
  | .Ident _ => by simp [ast.renameIdents, ast.idents]
  | .Other k l cs => by
    simp only [ast.renameIdents, ast.idents]
    rw [ast.identsList_renameIdentsList f cs]
theorem ast.identsList_renameIdentsList (f : GoString → GoString) :
    ∀ cs : List ast.Node,
      ast.identsList (ast.renameIdentsList f cs) = (ast.identsList cs).map f
  | [] => by simp [ast.renameIdentsList, ast.identsList]
  | c :: cs => by
    simp only [ast.renameIdentsList, ast.identsList, List.map_append]
    rw [ast.idents_renameIdents f c, ast.identsList_renameIdentsList f cs]
end

/-- C8: `Visit` returns the visitor itself for every node, also for the nil
node, so the walk skips no subtree; it sets the name of an identifier node to
`replacePrefix` of the old name and leaves any other node as it is. The walk
of a tree with the rewriter (given a depth bound above the height of the tree)
therefore yields the tree with every identifier renamed by `replacePrefix`:
the shape and the other nodes are kept, and the identifier names are the old
ones rewritten, in order. -/
theorem Visit_Walk_spec (m : modelReplacer) :
    (∀ n : Option ast.Node, (m.Visit n).2 = some m) ∧
    (∀ Name : GoString,
      (m.Visit (some (.Ident Name))).1 = some (.Ident (m.replacePrefix Name))) ∧
    (∀ k l cs, (m.Visit (some (.Other k l cs))).1 = some (.Other k l cs)) ∧
    (m.Visit none).1 = none ∧
    (∀ (t : ast.Node) (fuel : Nat), t.depth < fuel →
      ast.Walk modelReplacer.Visit fuel m t = ast.renameIdents m.replacePrefix t ∧
      ast.shape (ast.Walk modelReplacer.Visit fuel m t) = ast.shape t ∧
      ast.idents (ast.Walk modelReplacer.Visit fuel m t) =
        (ast.idents t).map m.replacePrefix) := by
  refine ⟨?_, ?_, ?_, ?_, ?_⟩
  · intro n
    unfold modelReplacer.Visit
    split <;> rfl
  · intro Name; rfl
  · intro k l cs; rfl
  · rfl
  · intro t fuel h
    rw [ast.Walk_modelReplacer m fuel t h]
    exact ⟨rfl, ast.shape_renameIdents _ t, ast.idents_renameIdents _ t⟩

/-- C8, on a small tree walked with the prefix `Dashboard`: only the
identifier that starts with the prefix changes. -/
theorem Visit_Walk_spec_witness :
    exampleTree.depth < 3 ∧
    ast.Walk modelReplacer.Visit 3 (ascii "Dashboard") exampleTree =
      ast.renameIdents (modelReplacer.replacePrefix (ascii "Dashboard")) exampleTree ∧
    ast.idents (ast.Walk modelReplacer.Visit 3 (ascii "Dashboard") exampleTree) =
      [ascii "ModelPanel", ascii "Panel"] :=
  ⟨by decide,
   ((Visit_Walk_spec (ascii "Dashboard")).2.2.2.2 exampleTree 3 (by decide)).1,
   by rw [((Visit_Walk_spec (ascii "Dashboard")).2.2.2.2 exampleTree 3 (by decide)).2.2]; decide⟩

/-! ## Names -/

theorem isIdentByte_lt {c : Nat} (h : isIdentByte c) : c < 128 := by
  unfold isIdentByte at h; omega

theorem isIdentByte_not_separator {c : Nat} (h : isIdentByte c) :
    strings.isSeparator c = false := by
  unfold isIdentByte at h
  unfold strings.isSeparator
  split_ifs <;> first | rfl | omega

theorem strings.isASCII_of_ident {name : GoString} (h : ∀ c ∈ name, isIdentByte c) :
    strings.isASCII name = true := by
  simp only [strings.isASCII, List.all_eq_true, decide_eq_true_eq]
  intro c hc
  exact isIdentByte_lt (h c hc)

theorem strings.titleLoop_of_ident :
    ∀ (t : GoString) (prev : Nat), isIdentByte prev → (∀ c ∈ t, isIdentByte c) →
      strings.titleLoop prev t = t
  | [], _, _, _ => by simp [strings.titleLoop]
  | r :: t, prev, hprev, h => by
    have hr : isIdentByte r := h r (List.mem_cons_self r t)
    have ht : ∀ c ∈ t, isIdentByte c := fun c hc => h c (List.mem_cons_of_mem r hc)
    simp [strings.titleLoop, isIdentByte_not_separator hprev,
      strings.titleLoop_of_ident t r hr ht]

theorem strings.Title_of_ident (U : GoString → GoString) {name : GoString}
    (h : IsIdentName name) : strings.Title U name = UpperFirst name := by
  obtain ⟨hne, hall⟩ := h
  cases name with
  | nil => exact absurd rfl hne
  | cons c t =>
    have hc : isIdentByte c := hall c (List.mem_cons_self c t)
    have ht : ∀ d ∈ t, isIdentByte d := fun d hd => hall d (List.mem_cons_of_mem c hd)
    have hsep : strings.isSeparator 32 = true := by decide
    simp [strings.Title, strings.isASCII_of_ident hall, strings.titleLoop, hsep,
      strings.titleLoop_of_ident t c hc ht, UpperFirst]

theorem makeReplacer_of_ident (U : GoString → GoString) {name : GoString}
    (h : IsIdentName name) : makeReplacer U name = some (UpperFirst name) := by
  obtain ⟨hne, hall⟩ := h
  cases name with
  | nil => exact absurd rfl hne
  | cons c t =>
    have hc : isIdentByte c := hall c (List.mem_cons_self c t)
    have hup : strings.upperByte c < 128 := by
      have := isIdentByte_lt hc
      unfold strings.upperByte
      split_ifs <;> omega
    simp [makeReplacer, strings.ToUpper, strings.isASCII_of_ident hall, stringOfByte, hup,
      UpperFirst]

theorem processCoremodelDir_names {env : Env} {path : Path} {ls : linsrc}
    (h : (processCoremodelDir env path).2 = .ok ls) :
    ls.PkgName = ls.lin.Name ∧ ls.TitleName = strings.Title env.titleUnicode ls.lin.Name ∧
    ls.path = filepath.Join [path, [ascii "lineage.cue"]] := by
  unfold processCoremodelDir at h
  dsimp only at h
  split at h
  · simp at h
  · split at h
    · simp at h
    · split at h
      · simp at h
      · simp only [Except.ok.injEq] at h
        subst h
        exact ⟨rfl, rfl, rfl⟩

/-- C2, as the code has it: `strings.Title` capitalises every word and
`makeReplacer` only the first byte. For the lineage name `a-b` the stored
`TitleName` is `A-B`, while `UpperFirst` and `makeReplacer` give `A-b`. -/
theorem TitleName_ne_makeReplacer :
    ((processCoremodelDir exampleEnv [ascii "a-b"]).2.toOption.map fun ls =>
      (ls.lin.Name, ls.TitleName)) = some (ascii "a-b", ascii "A-B") ∧
    UpperFirst (ascii "a-b") = ascii "A-b" ∧
    makeReplacer exampleEnv.mapUpper (ascii "a-b") = some (ascii "A-b") ∧
    ascii "A-B" ≠ ascii "A-b" := by
  decide

/-- C2, for names in the form of a Go package name (not empty; ASCII letters,
digits and underscores): the `TitleName` that `processCoremodelDir` stores in
the descriptor, which the registry template prints as the accessor method
name, is `UpperFirst` of the lineage name and is the prefix `makeReplacer`
gives `generateGo` and `generateTypescript` for that name; `PkgName` is the
lineage name. -/
theorem TitleName_eq_makeReplacer (env : Env) (path : Path) (ls : linsrc)
    (hload : (processCoremodelDir env path).2 = .ok ls) (hname : IsIdentName ls.lin.Name) :
    ls.TitleName = UpperFirst ls.lin.Name ∧
    makeReplacer env.mapUpper ls.lin.Name = some ls.TitleName ∧
    ls.PkgName = ls.lin.Name := by
  obtain ⟨hpkg, htitle, _⟩ := processCoremodelDir_names hload
  have ht : ls.TitleName = UpperFirst ls.lin.Name := by
    rw [htitle, strings.Title_of_ident _ hname]
  exact ⟨ht, by rw [ht, makeReplacer_of_ident _ hname], hpkg⟩

theorem isIdentName_dashboard : IsIdentName (ascii "dashboard") := by
  refine ⟨by decide, ?_⟩
  intro c hc
  have h : c ∈ [100, 97, 115, 104, 98, 111, 97, 114, 100] := hc
  simp only [List.mem_cons, List.mem_singleton, List.not_mem_nil, or_false] at h
  unfold isIdentByte
  omega

/-- C2, for the lineage `dashboard`: the stored name and the prefix are `Dashboard`. -/
theorem TitleName_eq_makeReplacer_witness :
    (processCoremodelDir exampleEnv [ascii "dashboard"]).2 =
      .ok { exampleLinsrc (ascii "dashboard") with
            path := [ascii "dashboard", ascii "lineage.cue"], relpath := [] } ∧
    IsIdentName (ascii "dashboard") ∧
    (exampleLinsrc (ascii "dashboard")).TitleName = ascii "Dashboard" ∧
    makeReplacer exampleEnv.mapUpper (ascii "dashboard") = some (ascii "Dashboard") :=
  have h := TitleName_eq_makeReplacer exampleEnv [ascii "dashboard"]
    { exampleLinsrc (ascii "dashboard") with
      path := [ascii "dashboard", ascii "lineage.cue"], relpath := [] }
    (by rfl) isIdentName_dashboard
  ⟨by rfl, isIdentName_dashboard, by decide, h.2.1⟩

/-! ## The generators -/

/-- C7: every write of `generateGo` comes after a successful parse of the
generator output followed by the addenda, a successful print of the tree the
rewriter has walked and a successful import normalisation; it goes to
`coremodel_gen.go` in the directory handed in, and its bytes are the bytes
that import normalisation returned. When the parse, the print or the import
normalisation fails there is therefore no write. -/
theorem generateGo_write_spec (env : Env) (path : Path) (ls : linsrc) (p : Path)
    (data : GoString) (hw : Event.WriteFile p data ∈ (generateGo env path ls).1) :
    ∃ f str gostr gf m buf,
      env.GenerateSchema ls.lin = .ok f ∧ env.yamlMarshal f = .ok str ∧
      env.codegenGenerate (env.LoadFromData str).1 ls.lin.Name ls.relpath = .ok gostr ∧
      env.ParseFile (gostr ++ tmplAddenda.Execute (addendaVars ls)) = .ok gf ∧
      makeReplacer env.mapUpper ls.lin.Name = some m ∧
      env.formatNode (ast.Walk modelReplacer.Visit (gf.depth + 1) m gf) = .ok buf ∧
      env.importsProcess [ascii "coremodel_gen.go"] buf = .ok data ∧
      p = filepath.Join [path, [ascii "coremodel_gen.go"]] := by
  cases h1 : env.GenerateSchema ls.lin with
  | error e => simp [generateGo, h1] at hw
  | ok f =>
  cases h2 : env.cueformatNode f with
  | error e => simp [generateGo, h1, h2] at hw
  | ok b =>
  cases h3 : env.yamlMarshal f with
  | error e => simp [generateGo, h1, h2, h3] at hw
  | ok str =>
  cases h4 : env.codegenGenerate (env.LoadFromData str).1 ls.lin.Name ls.relpath with
  | error e => simp [generateGo, h1, h2, h3, h4] at hw
  | ok gostr =>
  cases h5 : env.ParseFile (gostr ++ tmplAddenda.Execute (addendaVars ls)) with
  | error e => simp [generateGo, h1, h2, h3, h4, h5] at hw
  | ok gf =>
  cases h6 : makeReplacer env.mapUpper ls.lin.Name with
  | none => simp [generateGo, h1, h2, h3, h4, h5, h6] at hw
  | some m =>
  cases h7 : env.formatNode (ast.Walk modelReplacer.Visit (gf.depth + 1) m gf) with
  | error e => simp [generateGo, h1, h2, h3, h4, h5, h6, h7] at hw
  | ok buf =>
  cases h8 : env.importsProcess [ascii "coremodel_gen.go"] buf with
  | error e => simp [generateGo, h1, h2, h3, h4, h5, h6, h7, h8] at hw
  | ok byt =>
  have hw2 : p = filepath.Join [path, [ascii "coremodel_gen.go"]] ∧ data = byt := by
    cases h9 : env.WriteFile (filepath.Join [path, [ascii "coremodel_gen.go"]]) byt <;>
      simpa [generateGo, h1, h2, h3, h4, h5, h6, h7, h8, h9] using hw
  obtain ⟨hp, hd⟩ := hw2
  subst hd
  exact ⟨f, str, gostr, gf, m, buf, rfl, h3, h4, h5, rfl, h7, h8, hp⟩

/-- C7, in the example environment: the write of `generateGo` carries the
bytes that import normalisation returned, after the parse and the print. -/
theorem generateGo_write_spec_witness :
    Event.WriteFile [ascii "coremodel", ascii "dashboard", ascii "coremodel_gen.go"]
        (ascii "processed") ∈
      (generateGo exampleEnv [ascii "coremodel", ascii "dashboard"]
        (exampleLinsrc (ascii "dashboard"))).1 ∧
    ∃ f str gostr gf m buf,
      exampleEnv.GenerateSchema (exampleLinsrc (ascii "dashboard")).lin = .ok f ∧
      exampleEnv.yamlMarshal f = .ok str ∧
      exampleEnv.codegenGenerate (exampleEnv.LoadFromData str).1
        (exampleLinsrc (ascii "dashboard")).lin.Name
        (exampleLinsrc (ascii "dashboard")).relpath = .ok gostr ∧
      exampleEnv.ParseFile
        (gostr ++ tmplAddenda.Execute (addendaVars (exampleLinsrc (ascii "dashboard")))) =
          .ok gf ∧
      makeReplacer exampleEnv.mapUpper (exampleLinsrc (ascii "dashboard")).lin.Name = some m ∧
      exampleEnv.formatNode (ast.Walk modelReplacer.Visit (gf.depth + 1) m gf) = .ok buf ∧
      exampleEnv.importsProcess [ascii "coremodel_gen.go"] buf = .ok (ascii "processed") ∧
      [ascii "coremodel", ascii "dashboard", ascii "coremodel_gen.go"] =
        filepath.Join [[ascii "coremodel", ascii "dashboard"], [ascii "coremodel_gen.go"]] :=
  ⟨by decide,
   generateGo_write_spec exampleEnv [ascii "coremodel", ascii "dashboard"]
     (exampleLinsrc (ascii "dashboard"))
     [ascii "coremodel", ascii "dashboard", ascii "coremodel_gen.go"] (ascii "processed")
     (by decide)⟩

/-- C4, as the code has it: for the lineage `dashboard`, `generateTypescript`
asks `GenerateSingleAST` for the name `Dashboard`, the rename prefix itself,
and not for `Model`, which is what `replacePrefix` makes of that prefix. -/
theorem generateTypescript_name_not_Model :
    Event.GenerateSingleAST (ascii "Dashboard") ∈
      (generateTypescript exampleEnv [ascii "schema", ascii "dashboard"]
        (exampleLinsrc (ascii "dashboard"))).1 ∧
    Event.GenerateSingleAST Model ∉
      (generateTypescript exampleEnv [ascii "schema", ascii "dashboard"]
        (exampleLinsrc (ascii "dashboard"))).1 ∧
    modelReplacer.replacePrefix (ascii "Dashboard") (ascii "Dashboard") = Model ∧
    ascii "Dashboard" ≠ Model := by
  decide

/-- C4, amended: the name `generateTypescript` passes to `GenerateSingleAST`
is the rename prefix `makeReplacer` gives for the lineage name; the call is
made whenever `GenerateAST` has succeeded and `makeReplacer` has given a
prefix. -/
theorem generateTypescript_name_spec (env : Env) (path : Path) (ls : linsrc) :
    (∀ name, Event.GenerateSingleAST name ∈ (generateTypescript env path ls).1 →
      makeReplacer env.mapUpper ls.lin.Name = some name) ∧
    (∀ parts m, env.GenerateAST ls.lin = .ok parts →
      makeReplacer env.mapUpper ls.lin.Name = some m →
      Event.GenerateSingleAST m ∈ (generateTypescript env path ls).1) := by
  constructor
  · intro name hw
    cases h1 : env.GenerateAST ls.lin with
    | error e => simp [generateTypescript, h1] at hw
    | ok parts =>
    cases h2 : makeReplacer env.mapUpper ls.lin.Name with
    | none => simp [generateTypescript, h1, h2] at hw
    | some m =>
    cases h3 : env.GenerateSingleAST m ls.lin with
    | error e =>
      have : name = m := by simpa [generateTypescript, h1, h2, h3] using hw
      rw [this]
    | ok top =>
      have : name = m := by
        cases h4 : env.Stat path with
        | found =>
          cases h5 : env.WriteFile (filepath.Join [path, [ls.lin.Name ++ ascii ".gen.ts"]])
            (genHeader ls.relpath ++ env.Sprint (parts ++ [top.1, top.2])) <;>
            simpa [generateTypescript, h1, h2, h3, h4, h5] using hw
        | failed e => simpa [generateTypescript, h1, h2, h3, h4] using hw
        | notExist =>
          cases h6 : env.Mkdir path with
          | some e => simpa [generateTypescript, h1, h2, h3, h4, h6] using hw
          | none =>
            cases h5 : env.WriteFile (filepath.Join [path, [ls.lin.Name ++ ascii ".gen.ts"]])
              (genHeader ls.relpath ++ env.Sprint (parts ++ [top.1, top.2])) <;>
              simpa [generateTypescript, h1, h2, h3, h4, h5, h6] using hw
      rw [this]
  · intro parts m h1 h2
    cases h3 : env.GenerateSingleAST m ls.lin with
    | error e => simp [generateTypescript, h1, h2, h3]
    | ok top =>
      cases h4 : env.Stat path with
      | found =>
        cases h5 : env.WriteFile (filepath.Join [path, [ls.lin.Name ++ ascii ".gen.ts"]])
          (genHeader ls.relpath ++ env.Sprint (parts ++ [top.1, top.2])) <;>
          simp [generateTypescript, h1, h2, h3, h4, h5]
      | failed e => simp [generateTypescript, h1, h2, h3, h4]
      | notExist =>
        cases h6 : env.Mkdir path with
        | some e => simp [generateTypescript, h1, h2, h3, h4, h6]
        | none =>
          cases h5 : env.WriteFile (filepath.Join [path, [ls.lin.Name ++ ascii ".gen.ts"]])
            (genHeader ls.relpath ++ env.Sprint (parts ++ [top.1, top.2])) <;>
            simp [generateTypescript, h1, h2, h3, h4, h5, h6]

/-- C4, amended, for the lineage `dashboard`: the name passed is `Dashboard`. -/
theorem generateTypescript_name_spec_witness :
    Event.GenerateSingleAST (ascii "Dashboard") ∈
      (generateTypescript exampleEnv [ascii "schema", ascii "dashboard"]
        (exampleLinsrc (ascii "dashboard"))).1 ∧
    makeReplacer exampleEnv.mapUpper (exampleLinsrc (ascii "dashboard")).lin.Name =
      some (ascii "Dashboard") :=
  ⟨by decide,
   (generateTypescript_name_spec exampleEnv [ascii "schema", ascii "dashboard"]
      (exampleLinsrc (ascii "dashboard"))).1 (ascii "Dashboard") (by decide)⟩

/-- C6, where the code departs from it: when `LoadFromData` reports an error
and every other step succeeds, `generateGo` goes on to the generator, the
parser, the printer, import normalisation and the write, and returns nil. The
error of `LoadFromData` has no influence on the run at all. -/
theorem generateGo_ignores_LoadFromData_error :
    (exampleEnvLoadFails.LoadFromData (ascii "openapi")).2 = some "invalid document" ∧
    generateGo exampleEnvLoadFails [ascii "coremodel", ascii "dashboard"]
        (exampleLinsrc (ascii "dashboard")) =
      ([.call .GenerateSchema, .call .cueformatNode, .call .yamlMarshal, .call .LoadFromData,
        .call .codegenGenerate, .call .ParseFile, .call .formatNode, .call .importsProcess,
        .WriteFile [ascii "coremodel", ascii "dashboard", ascii "coremodel_gen.go"]
          (ascii "processed")],
       .returned none) ∧
    ∀ (env : Env) (path : Path) (ls : linsrc),
      generateGo { env with LoadFromData := fun s => ((env.LoadFromData s).1, none) } path ls =
        generateGo env path ls := by
  refine ⟨by decide, by decide, ?_⟩
  intro env path ls
  rfl

/-! ## The templates -/

/-- C3, where the code departs from it: the accessor interface in the text of
`tmplRegistry` is fixed text that declares the one method `Dashboard`, whatever
the list of descriptors. In the text rendered for the list that holds the
lineage `playlist` alone, the struct fields, the accessor methods and the
provider-wiring list name `playlist`, while the interface declares
`Dashboard` and the rendered text holds no declaration of a method `Playlist`
(a line that ends after the result type). -/
theorem tmplRegistry_interface_fixed :
    tmplRegistry.explicitRegistryStruct ⟨[exampleLinsrc (ascii "playlist")]⟩ =
      ascii "type explicitRegistry struct \x7b\n\t\n\tplaylist *playlist.Coremodel\n\x7d\n\n" ∧
    tmplRegistry.coremodelSet ⟨[exampleLinsrc (ascii "playlist")]⟩ =
      ascii "// CoremodelSet contains all of the wire-style providers from coremodels.\nvar CoremodelSet = wire.NewSet(\n\tplaylist.ProvideCoremodel,\n\tProvideExplicitRegistry,\n\tProvideRegistry,\n)\n\n" ∧
    tmplRegistry.accessors ⟨[exampleLinsrc (ascii "playlist")]⟩ =
      ascii "\nfunc (er explicitRegistry) Playlist() *playlist.Coremodel \x7b\n\treturn er.playlist\n\x7d\n" ∧
    tmplRegistry.explicitRegistryInterface ⟨[exampleLinsrc (ascii "playlist")]⟩ =
      ascii "// ExplicitRegistry provides access to individual coremodels via explicit\n// method calls, which are friendly to static analysis.\ntype ExplicitRegistry interface \x7b\n\tDashboard() *dashboard.Coremodel\n\x7d\n\n" ∧
    strings.Contains (tmplRegistry.Execute ⟨[exampleLinsrc (ascii "playlist")]⟩)
      (ascii "type ExplicitRegistry interface \x7b\n\tDashboard() *dashboard.Coremodel\n\x7d\n") = true ∧
    strings.Contains (tmplRegistry.Execute ⟨[exampleLinsrc (ascii "playlist")]⟩)
      (ascii "Playlist() *playlist.Coremodel\n") = false ∧
    (∀ cml : cmlist, tmplRegistry.explicitRegistryInterface cml =
      tmplRegistry.explicitRegistryInterface ⟨[]⟩) := by
  refine ⟨by decide, by decide, by decide, by rfl, by rfl, by rfl, fun _ => rfl⟩

/-- C10, where the code departs from it: for the lineage directory `playlist`
the loader is called with the engine path `pkg/coremodel/playlist`, and the
`Lineage` function in the addenda that `generateGo` renders for `playlist`
loads from `pkg/coremodel/dashboard`; the rendered text holds no string
literal `playlist`. That function is fixed text, whatever the name. -/
theorem tmplAddenda_lineage_path_fixed :
    Event.LoadGrafanaInstancesWithThema [ascii "pkg", ascii "coremodel", ascii "playlist"] ∈
      (processCoremodelDir exampleEnv
        [ascii "grafana", ascii "pkg", ascii "coremodel", ascii "playlist"]).1 ∧
    tmplAddenda.lineageFunc (addendaVars (exampleLinsrc (ascii "playlist"))) =
      ascii "\nfunc Lineage(lib thema.Library, opts ...thema.BindOption) (thema.Lineage, error) \x7b\n\treturn cuectx.LoadGrafanaInstancesWithThema(filepath.Join(\"pkg\", \"coremodel\", \"dashboard\"), cueFS, lib, opts...)\n\x7d\n\nvar _ thema.LineageFactory = Lineage\n\n" ∧
    strings.Contains (tmplAddenda.Execute (addendaVars (exampleLinsrc (ascii "playlist"))))
      (ascii "filepath.Join(\"pkg\", \"coremodel\", \"dashboard\")") = true ∧
    strings.Contains (tmplAddenda.Execute (addendaVars (exampleLinsrc (ascii "playlist"))))
      (ascii "\"playlist\"") = false ∧
    (∀ vars : goPkg, tmplAddenda.lineageFunc vars =
      tmplAddenda.lineageFunc (addendaVars (exampleLinsrc (ascii "dashboard")))) := by
  refine ⟨by decide, by rfl, by rfl, by rfl, fun _ => rfl⟩

/-! ## The driver -/

theorem filepath.Join_ne_nil (elem : List Path) : ∀ e ∈ filepath.Join elem, e ≠ [] := by
  intro e he
  simp only [filepath.Join, List.mem_filter, decide_eq_true_eq] at he
  exact he.2

theorem filepath.Join_cons_length (a : Path) (rest : List Path) (ha : ∀ e ∈ a, e ≠ []) :
    a.length ≤ (filepath.Join (a :: rest)).length := by
  simp only [filepath.Join, List.flatten, List.filter_append]
  have h : ∀ e ∈ a, decide (e ≠ []) = true := by
    intro e he
    simpa using ha e he
  rw [List.filter_eq_self.mpr h]
  simp

theorem processCoremodelDir_trace (env : Env) (path : Path) :
    ∀ ev ∈ (processCoremodelDir env path).1, ev.isOutput = false := by
  intro ev hev
  unfold processCoremodelDir at hev
  dsimp only at hev
  split at hev
  · simp at hev; subst hev; rfl
  · split at hev
    · simp at hev; rcases hev with h | h <;> subst h <;> rfl
    · split at hev <;>
      · simp at hev
        rcases hev with h | h | h <;> subst h <;> rfl

theorem loadLoop_trace (env : Env) (cmroot : Path) (k : Nat) :
    ∀ (items : List FileInfo) (lins : List linsrc),
      ∀ ev ∈ (loadLoop env cmroot k items lins).1, ev.isOutput = false := by
  intro items
  induction items with
  | nil => intro lins ev hev; simp [loadLoop] at hev
  | cons item items ih =>
    intro lins ev hev
    unfold loadLoop at hev
    split_ifs at hev with hd
    · dsimp only at hev
      split at hev
      · simp only [List.cons_append, List.mem_cons, List.mem_append, List.mem_singleton,
          List.not_mem_nil, or_false] at hev
        rcases hev with h | h | h
        · subst h; rfl
        · exact processCoremodelDir_trace _ _ ev h
        · subst h; rfl
      · split_ifs at hev
        · simp only [List.mem_cons] at hev
          rcases hev with h | h
          · subst h; rfl
          · exact processCoremodelDir_trace _ _ ev h
        · simp only [List.cons_append, List.mem_cons, List.mem_append] at hev
          rcases hev with h | h | h
          · subst h; rfl
          · exact processCoremodelDir_trace _ _ ev h
          · exact ih _ ev h
    · exact ih _ ev hev

theorem loadLoop_error (env : Env) (cmroot : Path) (k : Nat) (hroot : ∀ e ∈ cmroot, e ≠ [])
    (hk : k - 3 ≤ cmroot.length + 1) :
    ∀ (items : List FileInfo) (lins : List linsrc),
      (∃ item ∈ items, item.IsDir = true ∧
        ∃ e, (processCoremodelDir env (filepath.Join [cmroot, [item.Name]])).2 = .error e) →
      (loadLoop env cmroot k items lins).2 = .error 1 := by
  intro items
  induction items with
  | nil => intro lins h; obtain ⟨item, hmem, _⟩ := h; cases hmem
  | cons item items ih =>
    intro lins h
    obtain ⟨bad, hmem, hdir, e, herr⟩ := h
    unfold loadLoop
    by_cases hd : item.IsDir = true
    · rw [if_pos hd]
      dsimp only
      cases hr : (processCoremodelDir env (filepath.Join [cmroot, [item.Name]])).2 with
      | error e1 => rfl
      | ok lin =>
        have hpath := (processCoremodelDir_names hr).2.2
        have hlen : cmroot.length ≤ lin.path.length := by
          rw [hpath]
          have h1 := filepath.Join_cons_length cmroot [[item.Name]] hroot
          have h2 := filepath.Join_cons_length (filepath.Join [cmroot, [item.Name]])
            [[ascii "lineage.cue"]] (filepath.Join_ne_nil _)
          omega
        have hnot : ¬ (splitSep lin.path).length < k - 3 := by
          simp only [splitSep, List.length_cons]
          omega
        simp only [hnot, if_false]
        apply ih
        rcases List.mem_cons.mp hmem with hb | hb
        · subst hb
          rw [hr] at herr
          cases herr
        · exact ⟨bad, hb, hdir, e, herr⟩
    · rw [if_neg hd]
      apply ih
      rcases List.mem_cons.mp hmem with hb | hb
      · subst hb
        exact absurd hdir hd
      · exact ⟨bad, hb, hdir, e, herr⟩

theorem cmrootOf_ne_nil (cwd : Path) : ∀ e ∈ cmrootOf cwd, e ≠ [] :=
  filepath.Join_ne_nil _

theorem grootOf_length (cwd : Path) (hcwd : ∀ e ∈ cwd, e ≠ []) :
    cwd.length - 3 ≤ (grootOf cwd).length := by
  have hg : ∀ e ∈ cwd.take (cwd.length - 3), decide (e ≠ []) = true := by
    intro e he
    simpa using hcwd e (List.mem_of_mem_take he)
  have hsub : (cwd.take (cwd.length - 3)).Sublist (grootOf cwd) := by
    have h1 : (cwd.take (cwd.length - 3)).Sublist
        (((splitSep cwd).take ((splitSep cwd).length - 3)).filter fun e => decide (e ≠ [])) := by
      rw [← List.filter_eq_self.mpr hg]
      apply List.Sublist.filter
      simp only [splitSep, List.length_cons]
      cases hn : cwd.length - 2 with
      | zero =>
        have : cwd.length - 3 = 0 := by omega
        simp [this]
      | succ n =>
        have h3 : cwd.length - 3 = n := by omega
        have h4 : cwd.length + 1 - 3 = n + 1 := by omega
        rw [h3, h4, List.take_succ_cons]
        exact List.sublist_cons_self _ _
    simpa [grootOf, filepath.Join, List.flatten] using h1
  have := hsub.length_le
  simp only [List.length_take] at this
  omega

theorem cmrootOf_length (cwd : Path) (hcwd : ∀ e ∈ cwd, e ≠ []) :
    (splitSep cwd).length - 3 ≤ (cmrootOf cwd).length + 1 := by
  have h1 := grootOf_length cwd hcwd
  have h2 : (grootOf cwd).length ≤ (cmrootOf cwd).length :=
    filepath.Join_cons_length (grootOf cwd) _ (filepath.Join_ne_nil _)
  simp only [splitSep, List.length_cons]
  omega

/-- C5: when `main` has obtained the listing of the lineages directory (at most
one command-line word, a working directory of at least two, non-empty,
elements) and `processCoremodelDir` returns an error for some subdirectory of
the listing, `main` exits with code 1 and the run contains no call of
`generateGo`, `generateTypescript` or `generateRegistry`, no `Mkdir` and no
write: nothing is put out, also not for the lineages loaded before the
failing one. -/
theorem main_aborts_on_load_error (env : Env) (cwd : Path) (items : List FileInfo)
    (hargs : env.lenArgs ≤ 1) (hwd : env.Getwd = .ok cwd) (hcwd : ∀ e ∈ cwd, e ≠ [])
    (hlen : 2 ≤ cwd.length) (hdir : env.ReadDir (cmrootOf cwd) = .ok items)
    (hfail : ∃ item ∈ items, item.IsDir = true ∧
      ∃ e, (processCoremodelDir env (filepath.Join [cmrootOf cwd, [item.Name]])).2 = .error e) :
    (main env).2 = 1 ∧ ∀ ev ∈ (main env).1, ev.isOutput = false := by
  have hl := loadLoop_error env (cmrootOf cwd) (splitSep cwd).length (cmrootOf_ne_nil cwd)
    (cmrootOf_length cwd hcwd) items [] hfail
  have hargs2 : ¬ env.lenArgs > 1 := by omega
  have hlen2 : ¬ (splitSep cwd).length < 3 := by
    simp only [splitSep, List.length_cons]; omega
  have hmain : main env =
      (.call .Getwd :: .call .ReadDir ::
        (loadLoop env (cmrootOf cwd) (splitSep cwd).length items []).1, 1) := by
    unfold main
    simp only [hargs2, if_false, hwd, hlen2, hdir, hl]
  rw [hmain]
  refine ⟨rfl, ?_⟩
  intro ev hev
  simp only [List.mem_cons] at hev
  rcases hev with h | h | h
  · subst h; rfl
  · subst h; rfl
  · exact loadLoop_trace _ _ _ _ _ ev h

/-- C5, in the example run: the directory `widget` fails to load after
`dashboard` has loaded, the exit code is 1 and nothing is put out. -/
theorem main_aborts_on_load_error_witness :
    exampleEnv.lenArgs ≤ 1 ∧
    exampleEnv.Getwd =
      .ok [ascii "grafana", ascii "pkg", ascii "framework", ascii "coremodel"] ∧
    Event.LoadGrafanaInstancesWithThema [ascii "pkg", ascii "coremodel", ascii "dashboard"] ∈
      (main exampleEnv).1 ∧
    (main exampleEnv).2 = 1 ∧ ∀ ev ∈ (main exampleEnv).1, ev.isOutput = false :=
  ⟨by decide, by rfl, by decide,
   main_aborts_on_load_error exampleEnv
    [ascii "grafana", ascii "pkg", ascii "framework", ascii "coremodel"]
    [⟨ascii "README.md", false⟩, ⟨ascii "dashboard", true⟩, ⟨ascii "widget", true⟩]
    (by decide) (by rfl) (by decide) (by decide) (by rfl)
    ⟨⟨ascii "widget", true⟩, by decide, by rfl, "empty lineage file", by rfl⟩⟩

end Coremodel
